import Mathlib

/-!
Verification of the claude-code-kokoru-tts-summary announcement pipeline.

This file shallowly embeds the parts of the repository that the claims
concern:

* `src/claude_code_tts_server/core/context.py` — `sanitize_for_log`,
* `src/claude_code_tts_server/core/playback.py` — `get_player`,
  `play_sound_async`, and the `AudioPlayer` state machine,
* `src/claude_code_tts_server/core/sounds.py` — `generate_chime` and
  `generate_drop_tone` (real-valued model of the sample arrays),
* `src/claude_code_tts_server/tts/kokoro.py` — `KokoroTTS.synthesize`,
* `src/kokoro-server.py` — `handle_client` and the serial structure of
  `generation_worker`,
* the modular server's scheduler/player supervision loop, which is not
  present under `src/` (only its test suite `test_kokoro_server.py` is);
  those definitions are modelled from the spec and marked as such.

Python strings are modelled as `List Char` (UTF-8 lossy decoding is the
identity on the character level for the well-formed inputs the claims
quantify over); wall-clock instants are modelled as rationals; subprocess
handles are modelled by their observable poll status.
-/

namespace TTS

/-! ## core/context.py -/

/-- First step of `sanitize_for_log`: `text.replace("\n", "\\n")` — every
newline character becomes the two-character escape backslash-n. -/
def escapeNewlines : List Char → List Char
  | [] => []
  | c :: rest =>
    if c = '\n' then '\\' :: 'n' :: escapeNewlines rest
    else c :: escapeNewlines rest

/-- Second step of `sanitize_for_log`: `.replace("\r", "")` — every carriage
return is deleted. -/
def removeCarriageReturns (s : List Char) : List Char :=
  s.filter (fun c => c ≠ '\r')

/-- `sanitize_for_log(text, max_len)` from core/context.py: escape newlines,
delete carriage returns, and when the result is longer than `max_len`
truncate to `max_len` characters and append `"..."`. -/
def sanitize_for_log (text : List Char) (max_len : Nat) : List Char :=
  let t := removeCarriageReturns (escapeNewlines text)
  if max_len < t.length then t.take max_len ++ ('.' :: '.' :: '.' :: [])
  else t

theorem escapeNewlines_not_mem_newline (text : List Char) :
    '\n' ∉ escapeNewlines text := by
  induction text with
  | nil => simp [escapeNewlines]
  | cons c rest ih =>
    unfold escapeNewlines
    by_cases h : c = '\n'
    · rw [if_pos h]
      intro hmem
      rcases List.mem_cons.mp hmem with h1 | h1
      · exact absurd h1 (by decide)
      · rcases List.mem_cons.mp h1 with h2 | h2
        · exact absurd h2 (by decide)
        · exact ih h2
    · rw [if_neg h]
      intro hmem
      rcases List.mem_cons.mp hmem with h1 | h1
      · exact h h1.symm
      · exact ih h1

theorem removeCarriageReturns_not_mem_cr (s : List Char) :
    '\r' ∉ removeCarriageReturns s := by
  intro h
  have := List.of_mem_filter h
  simp at this

theorem removeCarriageReturns_not_mem (s : List Char) (c : Char)
    (h : c ∉ s) : c ∉ removeCarriageReturns s := by
  intro hmem
  exact h (List.mem_of_mem_filter hmem)

/-- C10: `sanitize_for_log` returns a string with no carriage return and no
literal newline, of length at most `max_len + 3`; when the escaped text
already fits within `max_len` it is returned unchanged. -/
theorem sanitize_for_log_safe (text : List Char) (max_len : Nat) :
    '\n' ∉ sanitize_for_log text max_len ∧
    '\r' ∉ sanitize_for_log text max_len ∧
    (sanitize_for_log text max_len).length ≤ max_len + 3 ∧
    ((removeCarriageReturns (escapeNewlines text)).length ≤ max_len →
      sanitize_for_log text max_len = removeCarriageReturns (escapeNewlines text)) := by
  have hn : '\n' ∉ removeCarriageReturns (escapeNewlines text) :=
    removeCarriageReturns_not_mem _ _ (escapeNewlines_not_mem_newline text)
  have hr : '\r' ∉ removeCarriageReturns (escapeNewlines text) :=
    removeCarriageReturns_not_mem_cr _
  have hdef : sanitize_for_log text max_len =
      if max_len < (removeCarriageReturns (escapeNewlines text)).length then
        (removeCarriageReturns (escapeNewlines text)).take max_len ++
          ('.' :: '.' :: '.' :: [])
      else removeCarriageReturns (escapeNewlines text) := rfl
  by_cases h : max_len < (removeCarriageReturns (escapeNewlines text)).length
  · rw [hdef, if_pos h]
    refine ⟨?_, ?_, ?_, ?_⟩
    · intro hmem
      rcases List.mem_append.mp hmem with h1 | h1
      · exact hn (List.mem_of_mem_take h1)
      · exact absurd h1 (by decide)
    · intro hmem
      rcases List.mem_append.mp hmem with h1 | h1
      · exact hr (List.mem_of_mem_take h1)
      · exact absurd h1 (by decide)
    · rw [List.length_append, List.length_take]
      have h3 : ('.' :: '.' :: '.' :: ([] : List Char)).length = 3 := rfl
      rw [h3]
      omega
    · intro hle
      exact absurd hle (not_le.mpr h)
  · rw [hdef, if_neg h]
    exact ⟨hn, hr, le_trans (not_lt.mp h) (Nat.le_add_right _ 3), fun _ => rfl⟩

theorem sanitize_for_log_safe_witness :
    (removeCarriageReturns (escapeNewlines ('a' :: '\n' :: 'b' :: []))).length ≤ 8 ∧
    sanitize_for_log ('a' :: '\n' :: 'b' :: []) 8 =
      removeCarriageReturns (escapeNewlines ('a' :: '\n' :: 'b' :: [])) :=
  ⟨by decide, (sanitize_for_log_safe ('a' :: '\n' :: 'b' :: []) 8).2.2.2 (by decide)⟩

/-! ## core/playback.py -/

/-- The observable platform facts `get_player` consults: `sys.platform ==
"darwin"` and which of mpv / paplay / aplay are on `$PATH`. -/
structure PlayerEnv where
  isDarwin : Bool
  hasMpv : Bool
  hasPaplay : Bool
  hasAplay : Bool
deriving DecidableEq

/-- `get_player()` from core/playback.py: `afplay` on Darwin, else the first
of `mpv --no-terminal`, `paplay`, `aplay` found on the path, else `None`. -/
def get_player (env : PlayerEnv) : Option (List (List Char)) :=
  if env.isDarwin then some [String.toList "afplay"]
  else if env.hasMpv then some [String.toList "mpv", String.toList "--no-terminal"]
  else if env.hasPaplay then some [String.toList "paplay"]
  else if env.hasAplay then some [String.toList "aplay"]
  else none

/-- `play_sound_async(audio_file)`: when a player exists and the file path is
truthy, spawn `player + [audio_file]` and return the handle (modelled by the
spawned command line), otherwise return `None` and spawn nothing. -/
def play_sound_async (env : PlayerEnv) (audio_file : List Char) :
    Option (List (List Char)) :=
  match get_player env with
  | some player => if audio_file ≠ [] then some (player ++ [audio_file]) else none
  | none => none

/-- A child process handle, observable through `poll()`: `none` while it is
still running, `some code` once it has exited. -/
structure Proc where
  exitCode : Option Int
deriving DecidableEq

/-- The three fields of the `AudioPlayer` instance: `current_process`,
`play_start_time`, `_current_audio_file`. -/
structure PlayerState where
  current_process : Option Proc
  play_start_time : Option ℚ
  current_audio_file : Option (List Char)
deriving DecidableEq

namespace AudioPlayer

/-- `AudioPlayer.__init__`: all three fields start cleared. -/
def init : PlayerState := ⟨none, none, none⟩

/-- `AudioPlayer.play(audio_file)`: if no player is available return `False`
leaving the state untouched; otherwise spawn the child and set all three
fields (process handle, monotonic start time, file path). -/
def play (env : PlayerEnv) (st : PlayerState) (audio_file : List Char)
    (proc : Proc) (now : ℚ) : PlayerState × Bool :=
  match get_player env with
  | none => (st, false)
  | some _ => (⟨some proc, some now, some audio_file⟩, true)

/-- `AudioPlayer.stop()`: terminate the child if it is still running, clear
all three fields, and return the path that was playing for cleanup. -/
def stop (st : PlayerState) : PlayerState × Option (List Char) :=
  (⟨none, none, none⟩, st.current_audio_file)

/-- `AudioPlayer.check_finished()`: when a process handle is set and its
`poll()` is not `None`, clear all three fields and return the finished file;
otherwise leave the state unchanged and return `None`. -/
def check_finished (st : PlayerState) : PlayerState × Option (List Char) :=
  match st.current_process with
  | some p =>
    if p.exitCode.isSome then (⟨none, none, none⟩, st.current_audio_file)
    else (st, none)
  | none => (st, none)

/-- `AudioPlayer.get_elapsed_time()`: `None` when no start time is recorded,
otherwise the difference between the current monotonic time and the recorded
start. -/
def get_elapsed_time (st : PlayerState) (now : ℚ) : Option ℚ :=
  match st.play_start_time with
  | none => none
  | some t => some (now - t)

end AudioPlayer

/-- `AudioPlayer.play_chime(chime_file)` spawns exactly these commands: none
when the chime file is unset or no player is available, otherwise the single
command `player + [chime_file]`. -/
def play_chime_spawns (env : PlayerEnv) (chime_file : Option (List Char)) :
    List (List (List Char)) :=
  match chime_file with
  | none => []
  | some c =>
    match get_player env with
    | none => []
    | some player => [player ++ [c]]

/-- The `PlayerState` invariant from the spec: the three fields are
simultaneously set or simultaneously cleared. -/
def allSetOrAllClear (st : PlayerState) : Prop :=
  (st.current_process.isSome = true ∧ st.play_start_time.isSome = true ∧
    st.current_audio_file.isSome = true) ∨
  (st.current_process = none ∧ st.play_start_time = none ∧
    st.current_audio_file = none)

instance (st : PlayerState) : Decidable (allSetOrAllClear st) := by
  unfold allSetOrAllClear
  infer_instance

/-- C2: every `AudioPlayer` operation — construction, play (successful or
not), stop, check_finished — leaves the three fields either all set or all
cleared. -/
theorem audioPlayer_allSetOrAllClear :
    allSetOrAllClear AudioPlayer.init ∧
    (∀ env st audio_file proc now, allSetOrAllClear st →
      allSetOrAllClear (AudioPlayer.play env st audio_file proc now).1) ∧
    (∀ st, allSetOrAllClear (AudioPlayer.stop st).1) ∧
    (∀ st, allSetOrAllClear st → allSetOrAllClear (AudioPlayer.check_finished st).1) := by
  refine ⟨Or.inr ⟨rfl, rfl, rfl⟩, ?_, ?_, ?_⟩
  · intro env st audio_file proc now hinv
    unfold AudioPlayer.play
    match h : get_player env with
    | none => exact hinv
    | some p => exact Or.inl ⟨rfl, rfl, rfl⟩
  · intro st
    exact Or.inr ⟨rfl, rfl, rfl⟩
  · intro st hinv
    unfold AudioPlayer.check_finished
    match h : st.current_process with
    | none => exact hinv
    | some p =>
      by_cases hp : p.exitCode.isSome
      · simp only [hp, if_true]
        exact Or.inr ⟨rfl, rfl, rfl⟩
      · simp only [hp, if_false]
        exact hinv

theorem audioPlayer_allSetOrAllClear_witness :
    allSetOrAllClear AudioPlayer.init ∧
    allSetOrAllClear
      (AudioPlayer.play ⟨true, false, false, false⟩ AudioPlayer.init
        (String.toList "a.wav") ⟨none⟩ 0).1 ∧
    allSetOrAllClear (AudioPlayer.check_finished AudioPlayer.init).1 :=
  ⟨audioPlayer_allSetOrAllClear.1,
   audioPlayer_allSetOrAllClear.2.1 ⟨true, false, false, false⟩ AudioPlayer.init
     (String.toList "a.wav") ⟨none⟩ 0 (by decide),
   audioPlayer_allSetOrAllClear.2.2.2 AudioPlayer.init (by decide)⟩

/-- C9: when the platform is not Darwin and none of mpv, paplay, aplay is on
the path, `get_player` returns `None` and every playback operation silently
no-ops: `AudioPlayer.play` returns `False` with the state unchanged,
`play_sound_async` returns `None`, and `play_chime` spawns nothing. -/
theorem no_player_noops (env : PlayerEnv)
    (h : env.isDarwin = false ∧ env.hasMpv = false ∧ env.hasPaplay = false ∧
      env.hasAplay = false) :
    get_player env = none ∧
    (∀ st audio_file proc now,
      AudioPlayer.play env st audio_file proc now = (st, false)) ∧
    (∀ audio_file, play_sound_async env audio_file = none) ∧
    (∀ chime_file, play_chime_spawns env chime_file = []) := by
  obtain ⟨h1, h2, h3, h4⟩ := h
  have hg : get_player env = none := by
    unfold get_player
    simp [h1, h2, h3, h4]
  refine ⟨hg, ?_, ?_, ?_⟩
  · intro st audio_file proc now
    unfold AudioPlayer.play
    rw [hg]
  · intro audio_file
    unfold play_sound_async
    rw [hg]
  · intro chime_file
    unfold play_chime_spawns
    match chime_file with
    | none => rfl
    | some c => rw [hg]

theorem no_player_noops_witness :
    get_player ⟨false, false, false, false⟩ = none ∧
    AudioPlayer.play ⟨false, false, false, false⟩ AudioPlayer.init
      (String.toList "a.wav") ⟨none⟩ 0 = (AudioPlayer.init, false) ∧
    play_sound_async ⟨false, false, false, false⟩ (String.toList "a.wav") = none ∧
    play_chime_spawns ⟨false, false, false, false⟩ (some (String.toList "c.wav")) = [] :=
  ⟨(no_player_noops ⟨false, false, false, false⟩ (by decide)).1,
   (no_player_noops ⟨false, false, false, false⟩ (by decide)).2.1 AudioPlayer.init
     (String.toList "a.wav") ⟨none⟩ 0,
   (no_player_noops ⟨false, false, false, false⟩ (by decide)).2.2.1 (String.toList "a.wav"),
   (no_player_noops ⟨false, false, false, false⟩ (by decide)).2.2.2
     (some (String.toList "c.wav"))⟩

/-! ## kokoro-server.py: handle_client (Ingress) -/

/-- Python `bytes.strip()` / `str.strip()` whitespace test (ASCII range,
which is all the claims exercise). -/
def isSpaceChar (c : Char) : Bool :=
  c = ' ' || c = '\t' || c = '\n' || c = '\r' || c = '\x0b' || c = '\x0c'

/-- Python `.strip()`: drop leading and trailing whitespace. -/
def pyStrip (s : List Char) : List Char :=
  ((s.dropWhile isSpaceChar).reverse.dropWhile isSpaceChar).reverse

/-- The literal payload `ping`. -/
def pingBytes : List Char := String.toList "ping"

/-- The literal response `pong`. -/
def pongBytes : List Char := String.toList "pong"

/-- The read loop of `handle_client`: chunks are appended to `data` as they
arrive; an empty chunk is EOF and running out of chunks is the read timeout
(both end the loop); after every appended chunk the accumulated data is
tested against `ping`, and on a match the loop stops early with the flag
set (the server then writes `pong` and returns). Returns the accumulated
data and whether the ping fast path fired. -/
def readLoop : List (List Char) → List Char → List Char × Bool
  | [], data => (data, false)
  | chunk :: rest, data =>
    if chunk = [] then (data, false)
    else
      let d := data ++ chunk
      if pyStrip d = pingBytes then (d, true)
      else readLoop rest d

/-- `handle_client` from kokoro-server.py, as a function of the chunk
sequence the socket delivers and the current request queue. Returns the
data the server accumulated, the bytes written back (if any), and the new
request queue: on the ping fast path it writes `pong` and enqueues nothing;
otherwise it closes without writing, decodes and trims the data, drops it
if empty (or if it equals `ping`), and enqueues the trimmed text. -/
def handle_client (chunks : List (List Char)) (queue : List (List Char)) :
    List Char × Option (List Char) × List (List Char) :=
  if (readLoop chunks []).2 then ((readLoop chunks []).1, some pongBytes, queue)
  else if pyStrip (readLoop chunks []).1 ≠ [] ∧
      pyStrip (readLoop chunks []).1 ≠ pingBytes then
    ((readLoop chunks []).1, none, queue ++ [pyStrip (readLoop chunks []).1])
  else ((readLoop chunks []).1, none, queue)

/-- Serving a sequence of connections one after the other, threading the
request queue; returns the per-connection responses and the final queue. -/
def serveConnections : List (List (List Char)) → List (List Char) →
    List (Option (List Char)) × List (List Char)
  | [], queue => ([], queue)
  | c :: rest, queue =>
    ((handle_client c queue).2.1 ::
        (serveConnections rest (handle_client c queue).2.2).1,
      (serveConnections rest (handle_client c queue).2.2).2)

theorem readLoop_detected (chunks : List (List Char)) :
    ∀ data, (readLoop chunks data).2 = true →
      pyStrip (readLoop chunks data).1 = pingBytes := by
  induction chunks with
  | nil => intro data h; exact absurd h (by simp [readLoop])
  | cons chunk rest ih =>
    intro data h
    unfold readLoop at h ⊢
    by_cases hc : chunk = []
    · rw [if_pos hc] at h ⊢
      exact absurd h (by simp)
    · rw [if_neg hc] at h ⊢
      by_cases hp : pyStrip (data ++ chunk) = pingBytes
      · rw [if_pos hp] at h ⊢
        exact hp
      · rw [if_neg hp] at h ⊢
        exact ih _ h

theorem readLoop_not_detected (chunks : List (List Char)) :
    ∀ data, (readLoop chunks data).2 = false →
      (readLoop chunks data).1 = data ∨
        pyStrip (readLoop chunks data).1 ≠ pingBytes := by
  induction chunks with
  | nil => intro data _; exact Or.inl rfl
  | cons chunk rest ih =>
    intro data h
    unfold readLoop at h ⊢
    by_cases hc : chunk = []
    · rw [if_pos hc] at h ⊢
      exact Or.inl rfl
    · rw [if_neg hc] at h ⊢
      by_cases hp : pyStrip (data ++ chunk) = pingBytes
      · rw [if_pos hp] at h
        exact absurd h (by simp)
      · rw [if_neg hp] at h ⊢
        rcases ih (data ++ chunk) h with h1 | h1
        · exact Or.inr (by rw [h1]; exact hp)
        · exact Or.inr h1

/-- C3: whenever the data received on a connection trims to exactly `ping`,
the server writes back exactly `pong` and the request queue is untouched;
moreover N sequential `ping` connections yield N `pong` responses and leave
any queue unchanged. -/
theorem ping_yields_pong (chunks : List (List Char)) (queue : List (List Char))
    (h : pyStrip (handle_client chunks queue).1 = pingBytes) :
    (handle_client chunks queue).2.1 = some pongBytes ∧
    (handle_client chunks queue).2.2 = queue ∧
    (∀ n q, serveConnections (List.replicate n [pingBytes]) q =
      (List.replicate n (some pongBytes), q)) := by
  have hserve : ∀ n q, serveConnections (List.replicate n [pingBytes]) q =
      (List.replicate n (some pongBytes), q) := by
    intro n
    induction n with
    | zero => intro q; rfl
    | succ k ih =>
      intro q
      rw [List.replicate_succ]
      unfold serveConnections
      have hone : handle_client [pingBytes] q = (pingBytes, some pongBytes, q) := rfl
      rw [hone, ih q, List.replicate_succ]
  have hfst : (handle_client chunks queue).1 = (readLoop chunks []).1 := by
    unfold handle_client
    by_cases hd : (readLoop chunks []).2
    · rw [if_pos hd]
    · rw [if_neg hd]
      by_cases ht : pyStrip (readLoop chunks []).1 ≠ [] ∧
          pyStrip (readLoop chunks []).1 ≠ pingBytes
      · rw [if_pos ht]
      · rw [if_neg ht]
  by_cases hd : (readLoop chunks []).2 = true
  · unfold handle_client
    rw [if_pos hd]
    exact ⟨rfl, rfl, hserve⟩
  · exfalso
    have hd' : (readLoop chunks []).2 = false := by
      cases hflag : (readLoop chunks []).2
      · rfl
      · exact absurd hflag hd
    rcases readLoop_not_detected chunks [] hd' with h1 | h1
    · rw [hfst, h1] at h
      exact absurd h (by decide)
    · rw [hfst] at h
      exact h1 h

theorem ping_yields_pong_witness :
    (handle_client [pingBytes] []).2.1 = some pongBytes ∧
    (handle_client [pingBytes] []).2.2 = [] :=
  ⟨(ping_yields_pong [pingBytes] [] (by decide)).1,
   (ping_yields_pong [pingBytes] [] (by decide)).2.1⟩

/-- C5: on a connection whose received data does not trim to `ping`, the
server writes nothing back; the trimmed text is silently dropped when
empty and is enqueued as exactly one message when non-empty. -/
theorem text_enqueued_once (chunks : List (List Char)) (queue : List (List Char))
    (h : pyStrip (handle_client chunks queue).1 ≠ pingBytes) :
    (handle_client chunks queue).2.1 = none ∧
    (pyStrip (handle_client chunks queue).1 = [] →
      (handle_client chunks queue).2.2 = queue) ∧
    (pyStrip (handle_client chunks queue).1 ≠ [] →
      (handle_client chunks queue).2.2 =
        queue ++ [pyStrip (handle_client chunks queue).1]) := by
  have hd : (readLoop chunks []).2 = false := by
    cases hflag : (readLoop chunks []).2
    · rfl
    · exfalso
      have := readLoop_detected chunks [] hflag
      unfold handle_client at h
      rw [if_pos hflag] at h
      exact h this
  have hfst : (handle_client chunks queue).1 = (readLoop chunks []).1 := by
    unfold handle_client
    rw [if_neg (by simp [hd])]
    by_cases ht : pyStrip (readLoop chunks []).1 ≠ [] ∧
        pyStrip (readLoop chunks []).1 ≠ pingBytes
    · rw [if_pos ht]
    · rw [if_neg ht]
  rw [hfst] at h ⊢
  unfold handle_client
  rw [if_neg (by simp [hd])]
  by_cases hempty : pyStrip (readLoop chunks []).1 = []
  · rw [if_neg (by simp [hempty])]
    exact ⟨rfl, fun _ => rfl, fun hne => absurd hempty hne⟩
  · rw [if_pos ⟨hempty, h⟩]
    exact ⟨rfl, fun he => absurd he hempty, fun _ => rfl⟩

theorem text_enqueued_once_witness :
    (handle_client [String.toList " hi "] []).2.1 = none ∧
    (handle_client [String.toList " hi "] []).2.2 = [String.toList "hi"] :=
  ⟨(text_enqueued_once [String.toList " hi "] [] (by decide)).1,
   (text_enqueued_once [String.toList " hi "] [] (by decide)).2.2
     (by decide)⟩

/-! ## kokoro-server.py: generation_worker (Synthesizer serialization) -/

/-- The start / end of one TTS synthesis call, tagged with the request
text. -/
inductive SynthEvent where
  | begins : List Char → SynthEvent
  | ends : List Char → SynthEvent
deriving DecidableEq

/-- `KokoroTTS.__init__` builds its executor with `max_workers=1`
(src/claude_code_tts_server/tts/kokoro.py). -/
def KokoroTTS_max_workers : Nat := 1

/-- The synthesis-call trace of `generation_worker` from kokoro-server.py:
the worker collects each batch of queued requests and then, for each request
in order, awaits `run_in_executor(None, generate_audio, text)` to completion
before issuing the next call, so each call contributes its begin event
immediately followed by its end event. -/
def generation_worker_trace (batches : List (List (List Char))) :
    List SynthEvent :=
  batches.flatMap (fun batch =>
    batch.flatMap (fun text => [SynthEvent.begins text, SynthEvent.ends text]))

/-- A trace is strictly serialized when it is a sequence of adjacent
begin/end pairs for the same request: no call begins before the previous
call has ended, and at most one call is ever in flight. -/
def strictlySerialized : List SynthEvent → Bool
  | [] => true
  | SynthEvent.begins t :: SynthEvent.ends t' :: rest =>
    t == t' && strictlySerialized rest
  | _ => false

theorem strictlySerialized_pairs (texts : List (List Char))
    (tail : List SynthEvent) (htail : strictlySerialized tail = true) :
    strictlySerialized
      (texts.flatMap (fun text => [SynthEvent.begins text, SynthEvent.ends text])
        ++ tail) = true := by
  induction texts with
  | nil => simpa using htail
  | cons t rest ih =>
    rw [List.flatMap_cons, List.append_assoc]
    show strictlySerialized (SynthEvent.begins t :: SynthEvent.ends t :: _) = true
    rw [strictlySerialized]
    simp only [beq_self_eq_true, Bool.true_and]
    exact ih

/-- C4: the TTS backend's executor admits one in-flight task
(`max_workers=1`), and the synthesis-call trace of `generation_worker` is
strictly serialized for every sequence of request batches: synthesis for
one message always ends before synthesis for the next begins. -/
theorem generation_serialized :
    KokoroTTS_max_workers = 1 ∧
    ∀ batches, strictlySerialized (generation_worker_trace batches) = true := by
  refine ⟨rfl, ?_⟩
  intro batches
  induction batches with
  | nil => rfl
  | cons batch rest ih =>
    unfold generation_worker_trace at ih ⊢
    rw [List.flatMap_cons]
    exact strictlySerialized_pairs batch _ ih

/-! ## tts/kokoro.py: KokoroTTS.synthesize and the Synthesizer worker -/

/-- What the Kokoro pipeline call does on a given text: either it raises an
exception, or it yields a list of audio segments (float32 sample lists,
here modelled over ℚ) which `generate` concatenates. -/
inductive PipelineResult where
  | raises : PipelineResult
  | yields : List (List ℚ) → PipelineResult
deriving DecidableEq

/-- Log events the synthesis path can emit. -/
inductive LogEvent where
  | errorLog : LogEvent
  | traceLog : LogEvent
  | warnLog : Nat → LogEvent
deriving DecidableEq

/-- `KokoroTTS.synthesize` from tts/kokoro.py: with no pipeline loaded it
logs an error and returns `None`; if the pipeline raises it logs the error
and returns `None`; if the pipeline yields no segments it returns `None`
(the timing trace line is still logged); otherwise it returns the
concatenation of the segments. -/
def KokoroTTS.synthesize (initialized : Bool) (res : PipelineResult) :
    Option (List ℚ) × List LogEvent :=
  if initialized = false then (none, [LogEvent.errorLog])
  else
    match res with
    | PipelineResult.raises => (none, [LogEvent.errorLog])
    | PipelineResult.yields segs =>
      if segs = [] then (none, [LogEvent.traceLog])
      else (some segs.flatten, [LogEvent.traceLog])

/-- A pending message: ingress-assigned identifier plus the payload text. -/
structure Msg where
  id : Nat
  text : List Char
deriving DecidableEq

/-- A ready-audio record: originating message id, synthesized samples, and
the original text. -/
structure ReadyAudio where
  message_id : Nat
  audio : List ℚ
  text : List Char
deriving DecidableEq

/-- Synthesis fails for a message exactly when the pipeline raises or the
resulting audio is empty (no segments, or only empty segments). -/
def synthFails (res : PipelineResult) : Bool :=
  match res with
  | PipelineResult.raises => true
  | PipelineResult.yields segs => segs.flatten == []

/-- Modelled from the spec: the modular package's Synthesizer worker loop is
not under `src/` (only `test_kokoro_server.py` and the superseded monolith
worker are). Spec §4.3: the single worker removes one message at a time,
invokes the TTS collaborator once per message, and on failure (exception,
or empty/none audio) drops the message with a logged warning and no retry,
then continues with the next message; on success it pushes one ReadyAudio
record. Returns (ready-audio pushes, log, one synthesis-call entry per
message). -/
def synthesis_worker (oracle : Nat → PipelineResult) :
    List Msg → List ReadyAudio × List LogEvent × List Nat
  | [] => ([], [], [])
  | m :: rest =>
    if (KokoroTTS.synthesize true (oracle m.id)).1 = none ∨
        (KokoroTTS.synthesize true (oracle m.id)).1 = some [] then
      ((synthesis_worker oracle rest).1,
        (KokoroTTS.synthesize true (oracle m.id)).2 ++
          LogEvent.warnLog m.id :: (synthesis_worker oracle rest).2.1,
        m.id :: (synthesis_worker oracle rest).2.2)
    else
      (ReadyAudio.mk m.id ((KokoroTTS.synthesize true (oracle m.id)).1.getD [])
          m.text :: (synthesis_worker oracle rest).1,
        (KokoroTTS.synthesize true (oracle m.id)).2 ++
          (synthesis_worker oracle rest).2.1,
        m.id :: (synthesis_worker oracle rest).2.2)

theorem synthesize_fails_iff (res : PipelineResult) :
    synthFails res = true ↔
      ((KokoroTTS.synthesize true res).1 = none ∨
        (KokoroTTS.synthesize true res).1 = some []) := by
  cases res with
  | raises => simp [synthFails, KokoroTTS.synthesize]
  | yields segs =>
    by_cases hs : segs = []
    · simp [synthFails, KokoroTTS.synthesize, hs]
    · simp only [synthFails, KokoroTTS.synthesize, Bool.false_eq_true,
        if_neg (by simp : ¬(true = false)), if_neg hs, beq_iff_eq]
      constructor
      · intro h
        exact Or.inr (by rw [h])
      · intro h
        rcases h with h | h
        · exact absurd h (by simp)
        · simpa using h

theorem synthesize_logs_no_warn (res : PipelineResult) (i : Nat) :
    (KokoroTTS.synthesize true res).2.count (LogEvent.warnLog i) = 0 := by
  cases res with
  | raises => simp [KokoroTTS.synthesize]
  | yields segs =>
    by_cases hs : segs = [] <;> simp [KokoroTTS.synthesize, hs]

/-- C8: for every message whose synthesis fails (the pipeline raises, or
returns none, or returns empty audio) the message is dropped: no ReadyAudio
record for it is pushed, exactly one warning per failing occurrence is
logged, and synthesis is called exactly once per message (no retry); the
worker continues, so every successfully synthesized message still yields
its ReadyAudio push. -/
theorem synthesis_failure_drops (oracle : Nat → PipelineResult)
    (msgs : List Msg) (i j : Nat)
    (hf : synthFails (oracle i) = true) (hs : synthFails (oracle j) = false) :
    ((synthesis_worker oracle msgs).1.filter
        (fun r => r.message_id == i)).length = 0 ∧
    (synthesis_worker oracle msgs).2.2 = msgs.map Msg.id ∧
    (synthesis_worker oracle msgs).2.1.count (LogEvent.warnLog i) =
      (msgs.map Msg.id).count i ∧
    ((synthesis_worker oracle msgs).1.filter
        (fun r => r.message_id == j)).length = (msgs.map Msg.id).count j := by
  induction msgs with
  | nil => exact ⟨rfl, rfl, rfl, rfl⟩
  | cons m rest ih =>
    obtain ⟨ih1, ih2, ih3, ih4⟩ := ih
    by_cases hfm : synthFails (oracle m.id) = true
    · have hcond := (synthesize_fails_iff (oracle m.id)).mp hfm
      have hmj : m.id ≠ j := by
        intro he
        rw [he] at hfm
        rw [hfm] at hs
        exact absurd hs (by simp)
      unfold synthesis_worker
      rw [if_pos hcond]
      refine ⟨ih1, by rw [List.map_cons]; exact congrArg _ ih2, ?_, ?_⟩
      · rw [List.count_append, List.count_cons, synthesize_logs_no_warn,
          List.map_cons, List.count_cons, ih3]
        simp
      · rw [List.map_cons, List.count_cons]
        have hbe : (m.id == j) = false := by
          rw [beq_eq_false_iff_ne]
          exact hmj
        simp [hbe, ih4]
    · have hcond : ¬((KokoroTTS.synthesize true (oracle m.id)).1 = none ∨
          (KokoroTTS.synthesize true (oracle m.id)).1 = some []) := by
        intro hc
        exact hfm ((synthesize_fails_iff (oracle m.id)).mpr hc)
      have hmi : m.id ≠ i := by
        intro he
        rw [he] at hfm
        exact hfm hf
      unfold synthesis_worker
      rw [if_neg hcond]
      refine ⟨?_, by rw [List.map_cons]; exact congrArg _ ih2, ?_, ?_⟩
      · rw [List.filter_cons]
        have : ((ReadyAudio.mk m.id
            ((KokoroTTS.synthesize true (oracle m.id)).1.getD []) m.text).message_id
              == i) = false := by
          rw [beq_eq_false_iff_ne]
          exact hmi
        rw [this]
        exact ih1
      · rw [List.count_append, synthesize_logs_no_warn, List.map_cons,
          List.count_cons, ih3]
        have hbe : (m.id == i) = false := by
          rw [beq_eq_false_iff_ne]
          exact hmi
        simp [hbe]
      · rw [List.filter_cons, List.map_cons, List.count_cons]
        by_cases hmj : m.id = j
        · have h1 : ((ReadyAudio.mk m.id
              ((KokoroTTS.synthesize true (oracle m.id)).1.getD []) m.text).message_id
                == j) = true := by
            rw [beq_iff_eq]
            exact hmj
          have h2 : (m.id == j) = true := by
            rw [beq_iff_eq]
            exact hmj
          rw [h1]
          simp [h2, ih4]
        · have h1 : ((ReadyAudio.mk m.id
              ((KokoroTTS.synthesize true (oracle m.id)).1.getD []) m.text).message_id
                == j) = false := by
            rw [beq_eq_false_iff_ne]
            exact hmj
          have h2 : (m.id == j) = false := by
            rw [beq_eq_false_iff_ne]
            exact hmj
          rw [h1]
          simp [h2, ih4]

theorem synthesis_failure_drops_witness :
    synthFails ((fun n => if n = 0 then PipelineResult.raises
      else PipelineResult.yields [[1]]) 0) = true ∧
    synthFails ((fun n => if n = 0 then PipelineResult.raises
      else PipelineResult.yields [[1]]) 1) = false ∧
    ((synthesis_worker
        (fun n => if n = 0 then PipelineResult.raises
          else PipelineResult.yields [[1]])
        [Msg.mk 0 (String.toList "a"), Msg.mk 1 (String.toList "b")]).1.filter
      (fun r => r.message_id == 0)).length = 0 :=
  ⟨by decide, by decide,
   (synthesis_failure_drops
     (fun n => if n = 0 then PipelineResult.raises
       else PipelineResult.yields [[1]])
     [Msg.mk 0 (String.toList "a"), Msg.mk 1 (String.toList "b")] 0 1
     (by decide) (by decide)).1⟩

/-! ## The Player supervision loop (spec §4.4)

The modular server's Player component — the owner of the supervision loop
with `MIN_DURATION` gating — is not present under `src/` (only its test
suite `test_kokoro_server.py` and the superseded monolith are), so the loop
itself is modelled from the spec; it is expressed over the real
`AudioPlayer` operations and `get_elapsed_time` embedded above from
core/playback.py. -/

/-- The Player configuration: the `--interrupt` toggle and
`--min-duration` (default 1.5 s). -/
structure PlayerCfg where
  interrupt : Bool
  min_duration : ℚ
deriving DecidableEq

/-- The Player's view of the world: its `AudioPlayer` state plus the
ReadyBuffer of synthesized audio awaiting playback. -/
structure LoopState where
  player : PlayerState
  ready : List (List Char)
deriving DecidableEq

/-- An external stimulus to the Player loop: a new ReadyAudio file arriving
from the Synthesizer, or one 50 ms supervision tick carrying the current
monotonic time and whether the child process has exited. -/
inductive LoopEvent where
  | readyArrives : List Char → LoopEvent
  | tick : ℚ → Bool → LoopEvent
deriving DecidableEq

/-- The observable actions the Player takes; an `interrupted` action records
the ReadyBuffer length, the interrupt toggle, and the elapsed playback time
observed at the moment of the interrupt. -/
inductive PlayerAction where
  | started : ℚ → PlayerAction
  | finishedNaturally : PlayerAction
  | interrupted : Nat → Bool → ℚ → PlayerAction
  | chime : PlayerAction
deriving DecidableEq

/-- Modelled from the spec: one step of the modular server's playback
supervision loop (spec §4.4, not under `src/`). When idle and ready audio is
waiting, launch the player (recording handle, start time and path — the
embedded `AudioPlayer.play`). While playing: if the child has exited,
natural completion clears the state (no interrupt); otherwise, if a
successor ReadyAudio is waiting AND interrupts are enabled AND the elapsed
time since launch (the embedded `AudioPlayer.get_elapsed_time`) is at least
`min_duration`, terminate the child (the embedded `AudioPlayer.stop`) and
play the transition chime; otherwise keep waiting. -/
def player_step (cfg : PlayerCfg) (env : PlayerEnv) (st : LoopState)
    (ev : LoopEvent) : LoopState × List PlayerAction :=
  match ev with
  | LoopEvent.readyArrives r => (⟨st.player, st.ready ++ [r]⟩, [])
  | LoopEvent.tick now childExited =>
    if st.player.current_process.isSome then
      if childExited then
        (⟨⟨none, none, none⟩, st.ready⟩, [PlayerAction.finishedNaturally])
      else
        match AudioPlayer.get_elapsed_time st.player now with
        | some elapsed =>
          if st.ready ≠ [] ∧ cfg.interrupt = true ∧ cfg.min_duration ≤ elapsed then
            (⟨(AudioPlayer.stop st.player).1, st.ready⟩,
              [PlayerAction.interrupted st.ready.length cfg.interrupt elapsed,
                PlayerAction.chime])
          else (st, [])
        | none => (st, [])
    else
      match st.ready with
      | [] => (st, [])
      | r :: rest =>
        (⟨(AudioPlayer.play env st.player r ⟨none⟩ now).1, rest⟩,
          [PlayerAction.started now])

/-- Modelled from the spec: the supervision loop run over a sequence of
stimuli, collecting the Player's actions in order. -/
def player_run (cfg : PlayerCfg) (env : PlayerEnv) :
    LoopState → List LoopEvent → List PlayerAction
  | _, [] => []
  | st, ev :: rest =>
    (player_step cfg env st ev).2 ++
      player_run cfg env (player_step cfg env st ev).1 rest

/-- C1: in every run of the playback supervision loop, an interrupt occurs
only when a successor ReadyAudio is already waiting in the ReadyBuffer AND
interrupts are enabled AND the elapsed wall-clock time since the player was
launched is at least `min_duration`; so no playing utterance is terminated
in favor of a successor before `min_duration` of airtime. -/
theorem interrupt_gated (cfg : PlayerCfg) (env : PlayerEnv)
    (st : LoopState) (events : List LoopEvent) (n : Nat) (b : Bool) (e : ℚ)
    (hmem : PlayerAction.interrupted n b e ∈ player_run cfg env st events) :
    0 < n ∧ b = true ∧ cfg.interrupt = true ∧ cfg.min_duration ≤ e := by
  induction events generalizing st with
  | nil => exact absurd hmem (List.not_mem_nil _)
  | cons ev rest ih =>
    rw [player_run, List.mem_append] at hmem
    rcases hmem with hstep | hrest
    · cases ev with
      | readyArrives r => exact absurd hstep (by simp [player_step])
      | tick now childExited =>
        rw [player_step] at hstep
        split at hstep
        · split at hstep
          · rcases List.mem_cons.mp hstep with h1 | h1
            · exact absurd h1 (by simp)
            · exact absurd h1 (List.not_mem_nil _)
          · split at hstep
            · split at hstep
              · rename_i elapsed helapsed hguard
                rcases List.mem_cons.mp hstep with h1 | h1
                · obtain ⟨hn, hb, he⟩ := PlayerAction.interrupted.inj h1
                  refine ⟨?_, ?_, hguard.2.1, ?_⟩
                  · rw [hn]
                    exact List.length_pos.mpr hguard.1
                  · rw [hb]
                    exact hguard.2.1
                  · rw [he]
                    exact hguard.2.2
                · rcases List.mem_cons.mp h1 with h2 | h2
                  · exact absurd h2 (by simp)
                  · exact absurd h2 (List.not_mem_nil _)
              · exact absurd hstep (List.not_mem_nil _)
            · exact absurd hstep (List.not_mem_nil _)
        · split at hstep
          · exact absurd hstep (List.not_mem_nil _)
          · rcases List.mem_cons.mp hstep with h1 | h1
            · exact absurd h1 (by simp)
            · exact absurd h1 (List.not_mem_nil _)
    · exact ih _ hrest

theorem interrupt_gated_witness :
    (0 < 1 ∧ true = true ∧ (PlayerCfg.mk true 1).interrupt = true ∧
      (PlayerCfg.mk true 1).min_duration ≤ 2) :=
  interrupt_gated (PlayerCfg.mk true 1) (PlayerEnv.mk true false false false)
    (LoopState.mk AudioPlayer.init [])
    [LoopEvent.readyArrives (String.toList "a.wav"),
      LoopEvent.tick 0 false,
      LoopEvent.readyArrives (String.toList "b.wav"),
      LoopEvent.tick 2 false]
    1 true 2 (by
      simp [player_run, player_step, AudioPlayer.init, AudioPlayer.play,
        AudioPlayer.get_elapsed_time, AudioPlayer.stop, get_player,
        one_le_two])

/-! ## core/sounds.py

The sample arrays of `generate_chime` and `generate_drop_tone` are embedded
as real-valued functions of the sample index (numpy float32 arithmetic is
modelled over ℝ); array lengths are the same integers the source computes
(`int(sample_rate * duration)` etc. — the float products involved are exact
at 24 kHz). `np.linspace(0, d, n, endpoint=False)` has `t[i] = d * i / n`;
`np.linspace(a, b, n)` has value `a + (b - a) * i / (n - 1)` at index `i`. -/

/-- Both sound assets are generated at 24 kHz. -/
def sound_sample_rate : Nat := 24000

/-- `int(sample_rate * 0.08)`: samples per chime note (1920). -/
def chime_note_len : Nat := sound_sample_rate * 8 / 100

/-- `int(sample_rate * 0.03)`: samples of silence between the notes (720). -/
def chime_gap_len : Nat := sound_sample_rate * 3 / 100

/-- Chime total length: note1 ++ gap ++ note2 (4560 samples). -/
def chime_len : Nat := chime_note_len + chime_gap_len + chime_note_len

/-- `int(len(t) * 0.05)`: linear attack samples of each note (96). -/
def chime_attack_len : Nat := chime_note_len * 5 / 100

/-- `int(sample_rate * 0.02)`: final fade-out samples of the chime (480). -/
def chime_fade_len : Nat := sound_sample_rate * 2 / 100

/-- The note's time axis: `np.linspace(0, 0.08, 1920, endpoint=False)`. -/
noncomputable def note_t (i : Nat) : ℝ := 0.08 * i / chime_note_len

/-- One chime note before the envelope: the fundamental at amplitude 0.25
plus the 2nd harmonic at 30% and the 3rd at 10% of that amplitude. -/
noncomputable def note_wave (freq : ℝ) (i : Nat) : ℝ :=
  0.25 * Real.sin (2 * Real.pi * freq * note_t i)
    + 0.25 * 0.3 * Real.sin (2 * Real.pi * freq * 2 * note_t i)
    + 0.25 * 0.1 * Real.sin (2 * Real.pi * freq * 3 * note_t i)

/-- The note envelope: `exp(-t * 8)`, with the first 5% of samples further
multiplied by a linear 0→1 attack ramp (`np.linspace(0, 1, 96)`). -/
noncomputable def note_envelope (i : Nat) : ℝ :=
  Real.exp (-note_t i * 8) *
    (if i < chime_attack_len then (i : ℝ) / ((chime_attack_len : ℝ) - 1) else 1)

/-- `make_note(freq, 0.08)` from `generate_chime`: wave times envelope. -/
noncomputable def make_note_sample (freq : ℝ) (i : Nat) : ℝ :=
  note_wave freq i * note_envelope i

/-- `generate_chime` sample at index `i`: the G5 (784 Hz) note, then
silence, then the C6 (1047 Hz) note, with the last
`int(sample_rate * 0.02)` samples multiplied by a linear 1→0 fade
(`np.linspace(1, 0, 480)`); indices past the end are 0. -/
noncomputable def generate_chime_sample (i : Nat) : ℝ :=
  (if i < chime_note_len then make_note_sample 784 i
   else if i < chime_note_len + chime_gap_len then 0
   else if i < chime_len then make_note_sample 1047 (i - (chime_note_len + chime_gap_len))
   else 0) *
  (if chime_len - chime_fade_len ≤ i ∧ i < chime_len then
     1 - ((i : ℝ) - ((chime_len - chime_fade_len : Nat) : ℝ)) / ((chime_fade_len : ℝ) - 1)
   else 1)

/-- `int(sample_rate * 0.15)`: drop-tone length (3600 samples). -/
def drop_len : Nat := sound_sample_rate * 15 / 100

/-- `int(sample_rate * 0.005)`: drop-tone attack samples (120). -/
def drop_attack_len : Nat := sound_sample_rate * 5 / 1000

/-- `int(sample_rate * 0.03)`: drop-tone fade-out samples (720). -/
def drop_fade_len : Nat := sound_sample_rate * 3 / 100

/-- The drop tone's time axis: `np.linspace(0, 0.15, 3600, endpoint=False)`. -/
noncomputable def drop_t (i : Nat) : ℝ := 0.15 * i / drop_len

/-- The drop tone before the envelope: the E5 (659 Hz) fundamental plus
three harmonics at coefficients 0.5, 0.25, 0.1 decaying at rates 20, 30,
40 per second. -/
noncomputable def drop_tone_wave (i : Nat) : ℝ :=
  Real.sin (2 * Real.pi * 659 * drop_t i)
    + 0.5 * Real.sin (2 * Real.pi * 659 * 2 * drop_t i) * Real.exp (-drop_t i * 20)
    + 0.25 * Real.sin (2 * Real.pi * 659 * 3 * drop_t i) * Real.exp (-drop_t i * 30)
    + 0.1 * Real.sin (2 * Real.pi * 659 * 4 * drop_t i) * Real.exp (-drop_t i * 40)

/-- The pluck envelope: the first `int(sample_rate * 0.005)` samples are
replaced by a linear 0→1 ramp (`np.linspace(0, 1, 120)`), the rest is
`exp(-t * 10)`. -/
noncomputable def drop_envelope (i : Nat) : ℝ :=
  if i < drop_attack_len then (i : ℝ) / ((drop_attack_len : ℝ) - 1)
  else Real.exp (-drop_t i * 10)

/-- `generate_drop_tone` sample at index `i`: wave times envelope times the
overall gain 0.18, with the last `int(sample_rate * 0.03)` samples
multiplied by a linear 1→0 fade (`np.linspace(1, 0, 720)`). -/
noncomputable def generate_drop_tone_sample (i : Nat) : ℝ :=
  (drop_tone_wave i * drop_envelope i * 0.18) *
  (if drop_len - drop_fade_len ≤ i ∧ i < drop_len then
     1 - ((i : ℝ) - ((drop_len - drop_fade_len : Nat) : ℝ)) / ((drop_fade_len : ℝ) - 1)
   else 1)

theorem abs_amp_sin_le (c θ : ℝ) (hc : 0 ≤ c) : |c * Real.sin θ| ≤ c := by
  rw [abs_mul, abs_of_nonneg hc]
  calc c * |Real.sin θ| ≤ c * 1 :=
        mul_le_mul_of_nonneg_left (Real.abs_sin_le_one θ) hc
    _ = c := mul_one c

theorem abs_amp_sin_exp_le (c θ x : ℝ) (hc : 0 ≤ c) (hx : x ≤ 0) :
    |c * Real.sin θ * Real.exp x| ≤ c := by
  rw [abs_mul]
  have h2 : |Real.exp x| ≤ 1 := by
    rw [abs_of_nonneg (Real.exp_nonneg x)]
    exact Real.exp_le_one_iff.mpr hx
  calc |c * Real.sin θ| * |Real.exp x| ≤ c * 1 :=
        mul_le_mul (abs_amp_sin_le c θ hc) h2 (abs_nonneg _) hc
    _ = c := mul_one c

theorem note_t_nonneg (i : Nat) : 0 ≤ note_t i := by
  rw [note_t]
  positivity

theorem note_envelope_bounds (i : Nat) :
    0 ≤ note_envelope i ∧ note_envelope i ≤ 1 := by
  rw [note_envelope]
  have hexp0 : 0 ≤ Real.exp (-note_t i * 8) := Real.exp_nonneg _
  have hexp1 : Real.exp (-note_t i * 8) ≤ 1 := by
    rw [Real.exp_le_one_iff]
    have := note_t_nonneg i
    linarith
  by_cases h : i < chime_attack_len
  · rw [if_pos h]
    have hc : ((chime_attack_len : ℝ)) - 1 = 95 := by
      norm_num [chime_attack_len, chime_note_len, sound_sample_rate]
    have hle : i ≤ 95 := by
      have he : chime_attack_len = 96 := by
        norm_num [chime_attack_len, chime_note_len, sound_sample_rate]
      omega
    have hi : (i : ℝ) ≤ 95 := by exact_mod_cast hle
    have hq0 : 0 ≤ (i : ℝ) / ((chime_attack_len : ℝ) - 1) := by
      rw [hc]
      positivity
    have hq1 : (i : ℝ) / ((chime_attack_len : ℝ) - 1) ≤ 1 := by
      rw [hc, div_le_one (by norm_num)]
      exact hi
    exact ⟨mul_nonneg hexp0 hq0, by nlinarith⟩
  · rw [if_neg h]
    exact ⟨by simpa using hexp0, by simpa using hexp1⟩

theorem abs_note_wave_le (freq : ℝ) (i : Nat) : |note_wave freq i| ≤ 0.35 := by
  rw [note_wave]
  set A := 0.25 * Real.sin (2 * Real.pi * freq * note_t i) with hA
  set B := 0.25 * 0.3 * Real.sin (2 * Real.pi * freq * 2 * note_t i) with hB
  set C := 0.25 * 0.1 * Real.sin (2 * Real.pi * freq * 3 * note_t i) with hC
  have h1 : |A| ≤ 0.25 := abs_amp_sin_le 0.25 _ (by norm_num)
  have h2 : |B| ≤ 0.25 * 0.3 := abs_amp_sin_le (0.25 * 0.3) _ (by norm_num)
  have h3 : |C| ≤ 0.25 * 0.1 := abs_amp_sin_le (0.25 * 0.1) _ (by norm_num)
  have hab := abs_add A B
  have habc := abs_add (A + B) C
  linarith

theorem abs_make_note_sample_le (freq : ℝ) (i : Nat) :
    |make_note_sample freq i| ≤ 0.35 := by
  rw [make_note_sample, abs_mul]
  obtain ⟨he0, he1⟩ := note_envelope_bounds i
  have he : |note_envelope i| ≤ 1 := by
    rw [abs_of_nonneg he0]
    exact he1
  calc |note_wave freq i| * |note_envelope i| ≤ 0.35 * 1 :=
        mul_le_mul (abs_note_wave_le freq i) he (abs_nonneg _) (by norm_num)
    _ = 0.35 := mul_one _

theorem chime_fade_abs_le (i : Nat) :
    |(if chime_len - chime_fade_len ≤ i ∧ i < chime_len then
        1 - ((i : ℝ) - ((chime_len - chime_fade_len : Nat) : ℝ)) /
          ((chime_fade_len : ℝ) - 1)
      else 1)| ≤ 1 := by
  by_cases h : chime_len - chime_fade_len ≤ i ∧ i < chime_len
  · rw [if_pos h]
    have hc1 : ((chime_len - chime_fade_len : Nat) : ℝ) = 4080 := by
      norm_num [chime_len, chime_note_len, chime_gap_len, chime_fade_len,
        sound_sample_rate]
    have hc2 : ((chime_fade_len : ℝ)) - 1 = 479 := by
      norm_num [chime_fade_len, sound_sample_rate]
    rw [hc1, hc2]
    have he1 : chime_len - chime_fade_len = 4080 := by
      norm_num [chime_len, chime_note_len, chime_gap_len, chime_fade_len,
        sound_sample_rate]
    have he2 : chime_len = 4560 := by
      norm_num [chime_len, chime_note_len, chime_gap_len, sound_sample_rate]
    have hi1 : (4080 : ℝ) ≤ (i : ℝ) := by
      have : (4080 : Nat) ≤ i := by omega
      exact_mod_cast this
    have hi2 : (i : ℝ) ≤ 4559 := by
      have : i ≤ 4559 := by omega
      exact_mod_cast this
    rw [abs_le]
    constructor
    · have hq : ((i : ℝ) - 4080) / 479 ≤ 1 := by
        rw [div_le_one (by norm_num)]
        linarith
      linarith
    · have hq : 0 ≤ ((i : ℝ) - 4080) / 479 := by
        apply div_nonneg <;> linarith
      linarith
  · rw [if_neg h]
    norm_num

/-- C6: the chime buffer — G5 note, silence, C6 note with harmonics,
decay envelope, attack ramp and final fade as embedded above — is
non-empty, its total duration at 24 kHz lies strictly between 0.15 s and
0.25 s, and its peak absolute amplitude is at most 1. -/
theorem generate_chime_ok :
    0 < chime_len ∧
    (0.15 : ℝ) < (chime_len : ℝ) / sound_sample_rate ∧
    (chime_len : ℝ) / sound_sample_rate < 0.25 ∧
    ∀ i : Nat, |generate_chime_sample i| ≤ 1 := by
  have hlen : chime_len = 4560 := by
    norm_num [chime_len, chime_note_len, chime_gap_len, sound_sample_rate]
  refine ⟨by omega, ?_, ?_, ?_⟩
  · rw [hlen]
    norm_num [sound_sample_rate]
  · rw [hlen]
    norm_num [sound_sample_rate]
  · intro i
    rw [generate_chime_sample, abs_mul]
    have hbase : |(if i < chime_note_len then make_note_sample 784 i
        else if i < chime_note_len + chime_gap_len then 0
        else if i < chime_len then
          make_note_sample 1047 (i - (chime_note_len + chime_gap_len))
        else 0)| ≤ 0.35 := by
      by_cases h1 : i < chime_note_len
      · rw [if_pos h1]
        exact abs_make_note_sample_le 784 i
      · rw [if_neg h1]
        by_cases h2 : i < chime_note_len + chime_gap_len
        · rw [if_pos h2]
          norm_num
        · rw [if_neg h2]
          by_cases h3 : i < chime_len
          · rw [if_pos h3]
            exact abs_make_note_sample_le 1047 _
          · rw [if_neg h3]
            norm_num
    refine le_trans (mul_le_mul hbase (chime_fade_abs_le i) (abs_nonneg _)
      (by norm_num)) ?_
    norm_num

theorem drop_t_nonneg (i : Nat) : 0 ≤ drop_t i := by
  rw [drop_t]
  positivity

theorem abs_drop_tone_wave_le (i : Nat) : |drop_tone_wave i| ≤ 1.85 := by
  rw [drop_tone_wave]
  have ht := drop_t_nonneg i
  set A := Real.sin (2 * Real.pi * 659 * drop_t i) with hA
  set B := 0.5 * Real.sin (2 * Real.pi * 659 * 2 * drop_t i) *
    Real.exp (-drop_t i * 20) with hB
  set C := 0.25 * Real.sin (2 * Real.pi * 659 * 3 * drop_t i) *
    Real.exp (-drop_t i * 30) with hC
  set D := 0.1 * Real.sin (2 * Real.pi * 659 * 4 * drop_t i) *
    Real.exp (-drop_t i * 40) with hD
  have h1 : |A| ≤ 1 := Real.abs_sin_le_one _
  have h2 : |B| ≤ 0.5 := abs_amp_sin_exp_le 0.5 _ _ (by norm_num) (by linarith)
  have h3 : |C| ≤ 0.25 := abs_amp_sin_exp_le 0.25 _ _ (by norm_num) (by linarith)
  have h4 : |D| ≤ 0.1 := abs_amp_sin_exp_le 0.1 _ _ (by norm_num) (by linarith)
  have hab := abs_add A B
  have habc := abs_add (A + B) C
  have habcd := abs_add (A + B + C) D
  linarith

theorem drop_envelope_bounds (i : Nat) :
    0 ≤ drop_envelope i ∧ drop_envelope i ≤ 1 := by
  rw [drop_envelope]
  by_cases h : i < drop_attack_len
  · rw [if_pos h]
    have hc : ((drop_attack_len : ℝ)) - 1 = 119 := by
      norm_num [drop_attack_len, sound_sample_rate]
    have hle : i ≤ 119 := by
      have he : drop_attack_len = 120 := by
        norm_num [drop_attack_len, sound_sample_rate]
      omega
    have hi : (i : ℝ) ≤ 119 := by exact_mod_cast hle
    rw [hc]
    constructor
    · positivity
    · rw [div_le_one (by norm_num)]
      exact hi
  · rw [if_neg h]
    refine ⟨Real.exp_nonneg _, ?_⟩
    rw [Real.exp_le_one_iff]
    have := drop_t_nonneg i
    linarith

theorem drop_fade_abs_le (i : Nat) :
    |(if drop_len - drop_fade_len ≤ i ∧ i < drop_len then
        1 - ((i : ℝ) - ((drop_len - drop_fade_len : Nat) : ℝ)) /
          ((drop_fade_len : ℝ) - 1)
      else 1)| ≤ 1 := by
  by_cases h : drop_len - drop_fade_len ≤ i ∧ i < drop_len
  · rw [if_pos h]
    have hc1 : ((drop_len - drop_fade_len : Nat) : ℝ) = 2880 := by
      norm_num [drop_len, drop_fade_len, sound_sample_rate]
    have hc2 : ((drop_fade_len : ℝ)) - 1 = 719 := by
      norm_num [drop_fade_len, sound_sample_rate]
    rw [hc1, hc2]
    have he1 : drop_len - drop_fade_len = 2880 := by
      norm_num [drop_len, drop_fade_len, sound_sample_rate]
    have he2 : drop_len = 3600 := by
      norm_num [drop_len, sound_sample_rate]
    have hi1 : (2880 : ℝ) ≤ (i : ℝ) := by
      have : (2880 : Nat) ≤ i := by omega
      exact_mod_cast this
    have hi2 : (i : ℝ) ≤ 3599 := by
      have : i ≤ 3599 := by omega
      exact_mod_cast this
    rw [abs_le]
    constructor
    · have hq : ((i : ℝ) - 2880) / 719 ≤ 1 := by
        rw [div_le_one (by norm_num)]
        linarith
      linarith
    · have hq : 0 ≤ ((i : ℝ) - 2880) / 719 := by
        apply div_nonneg <;> linarith
      linarith
  · rw [if_neg h]
    norm_num

/-- C7: the drop-tone buffer — E5 fundamental with three decaying
harmonics, attack ramp, `exp(-10 t)` envelope, gain 0.18 and final fade as
embedded above — has total duration at 24 kHz strictly between 0.10 s and
0.20 s, and its peak absolute amplitude is at most 1. -/
theorem generate_drop_tone_ok :
    0 < drop_len ∧
    (0.10 : ℝ) < (drop_len : ℝ) / sound_sample_rate ∧
    (drop_len : ℝ) / sound_sample_rate < 0.20 ∧
    ∀ i : Nat, |generate_drop_tone_sample i| ≤ 1 := by
  have hlen : drop_len = 3600 := by
    norm_num [drop_len, sound_sample_rate]
  refine ⟨by omega, ?_, ?_, ?_⟩
  · rw [hlen]
    norm_num [sound_sample_rate]
  · rw [hlen]
    norm_num [sound_sample_rate]
  · intro i
    rw [generate_drop_tone_sample, abs_mul]
    have hpluck : |drop_tone_wave i * drop_envelope i * 0.18| ≤ 1.85 * 0.18 := by
      rw [abs_mul]
      obtain ⟨he0, he1⟩ := drop_envelope_bounds i
      have he : |drop_envelope i| ≤ 1 := by
        rw [abs_of_nonneg he0]
        exact he1
      have hwe : |drop_tone_wave i * drop_envelope i| ≤ 1.85 := by
        rw [abs_mul]
        calc |drop_tone_wave i| * |drop_envelope i| ≤ 1.85 * 1 :=
              mul_le_mul (abs_drop_tone_wave_le i) he (abs_nonneg _) (by norm_num)
          _ = 1.85 := mul_one _
      calc |drop_tone_wave i * drop_envelope i| * |(0.18 : ℝ)| ≤
            1.85 * |(0.18 : ℝ)| :=
            mul_le_mul_of_nonneg_right hwe (abs_nonneg _)
        _ = 1.85 * 0.18 := by
            rw [abs_of_nonneg (by norm_num : (0:ℝ) ≤ 0.18)]
    refine le_trans (mul_le_mul hpluck (drop_fade_abs_le i) (abs_nonneg _)
      (by norm_num)) ?_
    norm_num

end TTS
